import Mathlib

/-!
Verification of the paired-end FASTQ re-synchronization script
(`preprocessing/scripts/sync.py`).

The script's core is `sync_paired_end_reads`: driven by the header stream of
the original (reference) file, it advances one pending record ("cursor") per
candidate stream, classifying each reference identifier as orphan-A,
orphan-B, kept, or no-op, and writing records to three output streams.

We embed the script shallowly: files are lists of lines (`List String`),
records are 4-line structures, the loop is structural recursion over the list
of reference identifiers, and the three output files are lists of records
carried in the state.
-/

namespace Sync

/-- Whitespace characters stripped by Python's `str.strip()` (ASCII cases). -/
def pyIsSpace (c : Char) : Bool :=
  c = ' ' || c = '\t' || c = '\n' || c = '\r' || c = '\x0b' || c = '\x0c'

/-- Python `s.strip()`: remove leading and trailing whitespace. -/
def pyStrip (s : String) : String :=
  ⟨((s.data.dropWhile pyIsSpace).reverse.dropWhile pyIsSpace).reverse⟩

/-- Python `s.split(' ')[0]`: the substring before the first space character. -/
def splitHead (s : String) : String :=
  ⟨s.data.takeWhile (fun c => c != ' ')⟩

/-- A FASTQ record: four stripped lines (header, sequence, separator, quality),
as built by `next_record` in the script. -/
structure Record where
  line1 : String
  line2 : String
  line3 : String
  line4 : String
deriving DecidableEq

/-- The script's `head(record)`: `record[0].split(' ')[0]`. -/
def head (r : Record) : String := splitHead r.line1

/-- The record obtained by reading four lines past end-of-file:
`readline` returns `''` there, so all four stripped lines are empty. -/
def emptyRecord : Record := ⟨"", "", "", ""⟩

/-- Python `fh.readline()` on a stream of remaining lines: the next line, or
`""` at end of file. -/
def readline : List String → String × List String
  | [] => ("", [])
  | l :: rest => (l, rest)

/-- The script's `next_record(fh)`: `[fh.readline().strip() for i in range(4)]`.
Returns the record together with the remaining lines of the stream. -/
def next_record (fh : List String) : Record × List String :=
  let p1 := readline fh
  let p2 := readline p1.2
  let p3 := readline p2.2
  let p4 := readline p3.2
  (⟨pyStrip p1.1, pyStrip p2.1, pyStrip p3.1, pyStrip p4.1⟩, p4.2)

/-- Identifier extraction shared by reference and candidates:
`x.strip().split(' ')[0]`. -/
def mateId (s : String) : String := splitHead (pyStrip s)

/-- The script's `headers` generator:
`(x.strip().split(' ')[0] for i, x in enumerate(original) if not (i % 4))` —
the mate identifier of every 4th line of the original file. -/
def headersOf : List String → List String
  | [] => []
  | [x] => [mateId x]
  | [x, _] => [mateId x]
  | [x, _, _] => [mateId x]
  | x :: _ :: _ :: _ :: rest => mateId x :: headersOf rest

/-- The sequence of records a candidate stream yields before exhaustion
(each record consumes up to four lines). -/
def recordsOf : List String → List Record
  | [] => []
  | [x] => [(next_record [x]).1]
  | [x, y] => [(next_record [x, y]).1]
  | [x, y, z] => [(next_record [x, y, z]).1]
  | x :: y :: z :: w :: rest => (next_record (x :: y :: z :: w :: rest)).1 :: recordsOf rest

/-- State of the synchronization loop: the two cursors (`a`, `b`), the
remaining lines of the two candidate streams (`fa`, `fb`), the three output
streams as lists of written records, and the five counters. -/
structure SyncState where
  a : Record
  b : Record
  fa : List String
  fb : List String
  synced_a : List Record
  synced_b : List Record
  orphans : List Record
  total_a : Nat
  total_b : Nat
  kept : Nat
  orphaned_a : Nat
  orphaned_b : Nat
deriving DecidableEq

/-- Effect of the orphan-A branch (lines 73-77 of the script). -/
def orphanAUpd (s : SyncState) : SyncState :=
  { s with orphans := s.orphans ++ [s.a],
           a := (next_record s.fa).1, fa := (next_record s.fa).2,
           orphaned_a := s.orphaned_a + 1, total_a := s.total_a + 1 }

/-- Effect of the orphan-B branch (lines 79-83 of the script). -/
def orphanBUpd (s : SyncState) : SyncState :=
  { s with orphans := s.orphans ++ [s.b],
           b := (next_record s.fb).1, fb := (next_record s.fb).2,
           orphaned_b := s.orphaned_b + 1, total_b := s.total_b + 1 }

/-- Effect of the kept branch (lines 85-91 of the script). -/
def keptUpd (s : SyncState) : SyncState :=
  { s with synced_a := s.synced_a ++ [s.a], synced_b := s.synced_b ++ [s.b],
           a := (next_record s.fa).1, fa := (next_record s.fa).2,
           b := (next_record s.fb).1, fb := (next_record s.fb).2,
           kept := s.kept + 1, total_a := s.total_a + 1, total_b := s.total_b + 1 }

/-- One iteration of the loop body: the three sequential `if` statements of the
script, each guard evaluated on the state left by the previous one (the third
guard is the chained comparison `header == head(a) == head(b)`). -/
def step (header : String) (s : SyncState) : SyncState :=
  let s1 := if header = head s.a ∧ header ≠ head s.b then orphanAUpd s else s
  let s2 := if header = head s1.b ∧ header ≠ head s1.a then orphanBUpd s1 else s1
  if header = head s2.a ∧ head s2.a = head s2.b then keptUpd s2 else s2

/-- Initial state: both cursors primed with the first record of their stream
(`a, b = next_record(reads_a), next_record(reads_b)`), counters zero, outputs
empty. -/
def initState (reads_a reads_b : List String) : SyncState :=
  { a := (next_record reads_a).1, b := (next_record reads_b).1,
    fa := (next_record reads_a).2, fb := (next_record reads_b).2,
    synced_a := [], synced_b := [], orphans := [],
    total_a := 0, total_b := 0, kept := 0, orphaned_a := 0, orphaned_b := 0 }

/-- The `for header in headers` loop: consume the reference identifiers one by
one, threading the state. -/
def loop : List String → SyncState → SyncState
  | [], s => s
  | h :: hs, s => loop hs (step h s)

/-- Full run of `sync_paired_end_reads` on the three input files, returning the
final loop state (outputs and counters). -/
def syncState (original reads_a reads_b : List String) : SyncState :=
  loop (headersOf original) (initState reads_a reads_b)

/-- The script's return value:
the quintuple `(total_a, total_b, kept, orphaned_a, orphaned_b)`. -/
def sync_paired_end_reads (original reads_a reads_b : List String) :
    Nat × Nat × Nat × Nat × Nat :=
  let s := syncState original reads_a reads_b
  (s.total_a, s.total_b, s.kept, s.orphaned_a, s.orphaned_b)

/-- One transition of the loop viewed as a machine over (remaining reference
identifiers, state); at the empty reference stream the machine is halted. -/
def machineStep : List String × SyncState → List String × SyncState
  | ([], s) => ([], s)
  | (h :: hs, s) => (hs, step h s)

/-- Iterate the machine `n` transitions. -/
def machineRun : Nat → List String × SyncState → List String × SyncState
  | 0, c => c
  | n + 1, c => machineRun n (machineStep c)

/-- The predicate deciding the fate of a candidate record: does its
identifier occur among the identifiers of the other candidate's records? -/
def keeps (other : List Record) (r : Record) : Bool :=
  decide (head r ∈ other.map head)

/-- Ordered-subsequence invariant for one candidate: the cursor/stream pair
represents a tail of the candidate record sequence (or the stream is
exhausted and the cursor is the sentinel), with the pending identifiers a
sublist of the remaining reference identifiers. -/
def pendingInv (recs d : List Record) (cur : Record) (f : List String)
    (R : List String) : Prop :=
  (recs = d ++ cur :: recordsOf f ∧
      List.Sublist (List.map head (cur :: recordsOf f)) R) ∨
    (cur = emptyRecord ∧ f = [] ∧ recs = d)

/-- The loop body rewritten as one exclusive nested conditional, all guards
evaluated on the state at the top of the iteration (what the spec describes
as the a/b/c classification). -/
def stepExclusive (header : String) (s : SyncState) : SyncState :=
  if header = head s.a ∧ header ≠ head s.b then orphanAUpd s
  else if header = head s.b ∧ header ≠ head s.a then orphanBUpd s
  else if header = head s.a ∧ head s.a = head s.b then keptUpd s
  else s

/-- Exactly one of three propositions holds. -/
def exactlyOneOf (P Q R : Prop) : Prop :=
  (P ∧ ¬Q ∧ ¬R) ∨ (¬P ∧ Q ∧ ¬R) ∨ (¬P ∧ ¬Q ∧ R)

/-- Modelled from the spec: "the substring of the record's header line before
the first space/whitespace character" read literally as cutting at the first
whitespace character of the raw header line. Used only to compare against the
script's actual extraction `mateId`. -/
def specMateId (s : String) : String :=
  ⟨s.data.takeWhile (fun c => !pyIsSpace c)⟩

/-- Every 4th line of a file (positions 0, 4, 8, ...): the header lines. -/
def everyFourth : List String → List String
  | [] => []
  | [x] => [x]
  | [x, _] => [x]
  | [x, _, _] => [x]
  | x :: _ :: _ :: _ :: rest => x :: everyFourth rest

/-! ### Structural lemmas about the record reader -/

/-- Reading one record consumes exactly four lines. -/
theorem next_record_snd (fh : List String) : (next_record fh).2 = fh.drop 4 := by
  rcases fh with _ | ⟨a, _ | ⟨b, _ | ⟨c, _ | ⟨d, t⟩⟩⟩⟩ <;> rfl

/-- Reading past end of file yields the empty-record sentinel and leaves the
stream empty. -/
theorem next_record_nil : next_record [] = (emptyRecord, []) := rfl

/-- On a nonempty stream, the record sequence starts with the first record
read and continues with the records of the remaining lines. -/
theorem recordsOf_cons {fh : List String} (h : fh ≠ []) :
    recordsOf fh = (next_record fh).1 :: recordsOf ((next_record fh).2) := by
  rcases fh with _ | ⟨x, _ | ⟨y, _ | ⟨z, _ | ⟨w, t⟩⟩⟩⟩
  · exact absurd rfl h
  all_goals rfl

/-- The identifier of the sentinel record is the empty string. -/
theorem head_emptyRecord : head emptyRecord = "" := rfl

/-! ### Normal form of the loop body

The script's three `if` statements are written sequentially, each guard
re-evaluated after the previous body may have advanced a cursor; we show they
collapse to one four-way exclusive case split evaluated entirely on the
incoming state. -/

theorem orphanAUpd_b (s : SyncState) : (orphanAUpd s).b = s.b := rfl
theorem orphanBUpd_a (s : SyncState) : (orphanBUpd s).a = s.a := rfl

/-- The loop body in exclusive nested-if normal form: all guards read the
state at the top of the iteration. -/
theorem step_eq (h : String) (s : SyncState) :
    step h s =
      if h = head s.a ∧ h ≠ head s.b then orphanAUpd s
      else if h = head s.b ∧ h ≠ head s.a then orphanBUpd s
      else if h = head s.a ∧ head s.a = head s.b then keptUpd s
      else s := by
  by_cases c1 : h = head s.a ∧ h ≠ head s.b
  · have c2 : ¬ (h = head (orphanAUpd s).b ∧ h ≠ head (orphanAUpd s).a) := by
      rintro ⟨hb, -⟩
      exact c1.2 hb
    have c3 : ¬ (h = head (orphanAUpd s).a ∧
        head (orphanAUpd s).a = head (orphanAUpd s).b) := by
      rintro ⟨ha, hab⟩
      exact c1.2 (ha.trans hab)
    simp only [step]
    rw [if_pos c1, if_neg c2, if_neg c3, if_pos c1]
  · by_cases c2 : h = head s.b ∧ h ≠ head s.a
    · have c3 : ¬ (h = head (orphanBUpd s).a ∧
          head (orphanBUpd s).a = head (orphanBUpd s).b) := by
        rintro ⟨ha, -⟩
        exact c2.2 ha
      simp only [step]
      rw [if_neg c1, if_pos c2, if_neg c3, if_neg c1, if_pos c2]
    · simp only [step]
      rw [if_neg c1, if_neg c2, if_neg c1, if_neg c2]

/-- If the reference identifier matches neither cursor, the iteration is a
no-op: the state (counters, cursors, streams, outputs) is unchanged. -/
theorem step_noop {h : String} {s : SyncState}
    (ha : h ≠ head s.a) (hb : h ≠ head s.b) : step h s = s := by
  rw [step_eq]
  rw [if_neg (fun c => ha c.1), if_neg (fun c => hb c.1),
    if_neg (fun c => ha c.1)]

/-- If the reference identifier matches cursor A only, exactly the orphan-A
branch fires. -/
theorem step_orphanA {h : String} {s : SyncState}
    (ha : h = head s.a) (hb : h ≠ head s.b) : step h s = orphanAUpd s := by
  rw [step_eq, if_pos ⟨ha, hb⟩]

/-- If the reference identifier matches cursor B only, exactly the orphan-B
branch fires. -/
theorem step_orphanB {h : String} {s : SyncState}
    (ha : h ≠ head s.a) (hb : h = head s.b) : step h s = orphanBUpd s := by
  rw [step_eq]
  rw [if_neg (fun c => ha c.1), if_pos ⟨hb, ha⟩]

/-- If the reference identifier matches both cursors, exactly the kept branch
fires. -/
theorem step_kept {h : String} {s : SyncState}
    (ha : h = head s.a) (hb : h = head s.b) : step h s = keptUpd s := by
  rw [step_eq]
  rw [if_neg (fun c => c.2 hb), if_neg (fun c => c.2 ha),
    if_pos ⟨ha, ha.symm.trans hb⟩]

/-! ### Counter invariants -/

/-- Conservation is preserved by one loop iteration. -/
theorem step_conserve {s : SyncState}
    (ha : s.total_a = s.kept + s.orphaned_a)
    (hb : s.total_b = s.kept + s.orphaned_b) (h : String) :
    (step h s).total_a = (step h s).kept + (step h s).orphaned_a ∧
    (step h s).total_b = (step h s).kept + (step h s).orphaned_b := by
  rw [step_eq]
  split_ifs <;>
    first
      | exact ⟨ha, hb⟩
      | (simp only [orphanAUpd, orphanBUpd, keptUpd]; constructor <;> omega)

/-- Conservation is preserved by the whole loop. -/
theorem loop_conserve :
    ∀ (hs : List String) (s : SyncState),
      s.total_a = s.kept + s.orphaned_a →
      s.total_b = s.kept + s.orphaned_b →
      (loop hs s).total_a = (loop hs s).kept + (loop hs s).orphaned_a ∧
      (loop hs s).total_b = (loop hs s).kept + (loop hs s).orphaned_b
  | [], _, ha, hb => ⟨ha, hb⟩
  | h :: hs, s, ha, hb =>
    loop_conserve hs (step h s) (step_conserve ha hb h).1 (step_conserve ha hb h).2

/-- Counters equal output lengths, and each cursor always holds the record at
stream position `total` (so exactly `total_a` records of A have been consumed
and written; the pending record is the next one and is in no output). This is
preserved by one iteration. -/
theorem step_position {ra rb : List String} {s : SyncState}
    (h1 : s.a = (next_record (ra.drop (4 * s.total_a))).1)
    (h2 : s.fa = ra.drop (4 * s.total_a + 4))
    (h3 : s.b = (next_record (rb.drop (4 * s.total_b))).1)
    (h4 : s.fb = rb.drop (4 * s.total_b + 4))
    (h5 : s.kept = s.synced_a.length)
    (h6 : s.kept = s.synced_b.length)
    (h7 : s.orphaned_a + s.orphaned_b = s.orphans.length) (h : String) :
    (step h s).a = (next_record (ra.drop (4 * (step h s).total_a))).1 ∧
    (step h s).fa = ra.drop (4 * (step h s).total_a + 4) ∧
    (step h s).b = (next_record (rb.drop (4 * (step h s).total_b))).1 ∧
    (step h s).fb = rb.drop (4 * (step h s).total_b + 4) ∧
    (step h s).kept = (step h s).synced_a.length ∧
    (step h s).kept = (step h s).synced_b.length ∧
    (step h s).orphaned_a + (step h s).orphaned_b = (step h s).orphans.length := by
  have adv_a : (next_record s.fa).1 =
      (next_record (ra.drop (4 * (s.total_a + 1)))).1 ∧
      (next_record s.fa).2 = ra.drop (4 * (s.total_a + 1) + 4) := by
    constructor
    · rw [h2]
      have : 4 * s.total_a + 4 = 4 * (s.total_a + 1) := by omega
      rw [this]
    · rw [next_record_snd, h2, List.drop_drop]
      have : 4 * s.total_a + 4 + 4 = 4 * (s.total_a + 1) + 4 := by omega
      rw [this]
  have adv_b : (next_record s.fb).1 =
      (next_record (rb.drop (4 * (s.total_b + 1)))).1 ∧
      (next_record s.fb).2 = rb.drop (4 * (s.total_b + 1) + 4) := by
    constructor
    · rw [h4]
      have : 4 * s.total_b + 4 = 4 * (s.total_b + 1) := by omega
      rw [this]
    · rw [next_record_snd, h4, List.drop_drop]
      have : 4 * s.total_b + 4 + 4 = 4 * (s.total_b + 1) + 4 := by omega
      rw [this]
  rw [step_eq]
  split_ifs
  · exact ⟨adv_a.1, adv_a.2, h3, h4, by simpa using h5, by simpa using h6, by
      simp only [orphanAUpd, List.length_append, List.length_cons, List.length_nil]
      omega⟩
  · exact ⟨h1, h2, adv_b.1, adv_b.2, by simpa using h5, by simpa using h6, by
      simp only [orphanBUpd, List.length_append, List.length_cons, List.length_nil]
      omega⟩
  · refine ⟨adv_a.1, adv_a.2, adv_b.1, adv_b.2, ?_, ?_, by simpa using h7⟩
    · simp only [keptUpd, List.length_append, List.length_cons, List.length_nil]
      omega
    · simp only [keptUpd, List.length_append, List.length_cons, List.length_nil]
      omega
  · exact ⟨h1, h2, h3, h4, h5, h6, h7⟩

/-- The position/length invariant holds of every state the loop reaches. -/
theorem loop_position (ra rb : List String) :
    ∀ (hs : List String) (s : SyncState),
      s.a = (next_record (ra.drop (4 * s.total_a))).1 →
      s.fa = ra.drop (4 * s.total_a + 4) →
      s.b = (next_record (rb.drop (4 * s.total_b))).1 →
      s.fb = rb.drop (4 * s.total_b + 4) →
      s.kept = s.synced_a.length →
      s.kept = s.synced_b.length →
      s.orphaned_a + s.orphaned_b = s.orphans.length →
      (loop hs s).a = (next_record (ra.drop (4 * (loop hs s).total_a))).1 ∧
      (loop hs s).fa = ra.drop (4 * (loop hs s).total_a + 4) ∧
      (loop hs s).b = (next_record (rb.drop (4 * (loop hs s).total_b))).1 ∧
      (loop hs s).fb = rb.drop (4 * (loop hs s).total_b + 4) ∧
      (loop hs s).kept = (loop hs s).synced_a.length ∧
      (loop hs s).kept = (loop hs s).synced_b.length ∧
      (loop hs s).orphaned_a + (loop hs s).orphaned_b = (loop hs s).orphans.length
  | [], s, h1, h2, h3, h4, h5, h6, h7 => ⟨h1, h2, h3, h4, h5, h6, h7⟩
  | h :: hs, s, h1, h2, h3, h4, h5, h6, h7 => by
    obtain ⟨g1, g2, g3, g4, g5, g6, g7⟩ := step_position h1 h2 h3 h4 h5 h6 h7 h
    exact loop_position ra rb hs (step h s) g1 g2 g3 g4 g5 g6 g7

/-! ### Small-step view of the loop (for termination) -/

/-- After `n` transitions, exactly the first `n` reference identifiers have
been consumed and processed. -/
theorem machineRun_eq :
    ∀ (n : Nat) (hs : List String) (s : SyncState),
      machineRun n (hs, s) = (hs.drop n, loop (hs.take n) s)
  | 0, hs, s => rfl
  | n + 1, hs, s => by
    cases hs with
    | nil =>
      show machineRun n ([], s) = _
      rw [machineRun_eq n [] s]
      simp [loop]
    | cons h t =>
      show machineRun n (t, step h s) = _
      rw [machineRun_eq n t (step h s)]
      rfl

/-- Each iteration only moves forward in the candidate streams: the remaining
lines afterwards are a suffix of the remaining lines before (no backtracking,
no re-reading). -/
theorem step_forward (h : String) (s : SyncState) :
    (step h s).fa <:+ s.fa ∧ (step h s).fb <:+ s.fb := by
  rw [step_eq]
  have hfa : (next_record s.fa).2 <:+ s.fa := by
    rw [next_record_snd]
    exact s.fa.drop_suffix 4
  have hfb : (next_record s.fb).2 <:+ s.fb := by
    rw [next_record_snd]
    exact s.fb.drop_suffix 4
  split_ifs
  · exact ⟨hfa, List.suffix_refl _⟩
  · exact ⟨List.suffix_refl _, hfb⟩
  · exact ⟨hfa, hfb⟩
  · exact ⟨List.suffix_refl _, List.suffix_refl _⟩

/-! ### Alignment of the two synced outputs -/

/-- Position-for-position identifier equality of the synced outputs is
preserved by one iteration (the kept branch appends records with equal
identifiers, the other branches touch neither output). -/
theorem step_aligned {s : SyncState}
    (hal : List.map head s.synced_a = List.map head s.synced_b) (h : String) :
    List.map head (step h s).synced_a = List.map head (step h s).synced_b := by
  rw [step_eq]
  split_ifs with c1 c2 c3
  · simpa [orphanAUpd] using hal
  · simpa [orphanBUpd] using hal
  · simp [keptUpd, hal, c3.2]
  · exact hal

/-- Position-for-position identifier equality is preserved by the loop. -/
theorem loop_aligned :
    ∀ (hs : List String) (s : SyncState),
      List.map head s.synced_a = List.map head s.synced_b →
      List.map head (loop hs s).synced_a = List.map head (loop hs s).synced_b
  | [], _, hal => hal
  | h :: hs, s, hal => loop_aligned hs (step h s) (step_aligned hal h)

/-! ### Sublist helpers -/

/-- A sublist of `h :: R` whose first element is not `h`, where `h` also does
not occur in `R`, is a sublist of `R` and avoids `h` entirely. -/
theorem cons_sublist_shift {a h : String} {l R : List String}
    (hs : List.Sublist (a :: l) (h :: R)) (hne : a ≠ h) (hmem : h ∉ R) :
    List.Sublist (a :: l) R ∧ h ∉ a :: l := by
  cases hs with
  | cons _ htail => exact ⟨htail, fun hm => hmem (htail.subset hm)⟩
  | cons₂ _ htail => exact absurd rfl hne

/-- If the current reference identifier `h` matches neither the consumed part
nor the pending cursor, it occurs nowhere among the candidate's identifiers,
and the pending invariant transfers from `h :: R` to `R`. -/
theorem pendingInv_shift {recs d : List Record} {cur : Record}
    {f : List String} {h : String} {done R : List String}
    (hp : pendingInv recs d cur f (h :: R))
    (hd : List.Sublist (List.map head d) done) (hdone : h ∉ done) (hR : h ∉ R)
    (hcur : h ≠ head cur) :
    h ∉ List.map head recs ∧ pendingInv recs d cur f R := by
  have hnotd : h ∉ List.map head d := fun hm => hdone (hd.subset hm)
  rcases hp with ⟨heq, hsub⟩ | ⟨hce, hfe, heq⟩
  · rw [List.map_cons] at hsub
    obtain ⟨hsub', hnp⟩ := cons_sublist_shift hsub (fun e => hcur e.symm) hR
    constructor
    · rw [heq, List.map_append]
      intro hm
      rcases List.mem_append.mp hm with hm1 | hm2
      · exact hnotd hm1
      · rw [List.map_cons] at hm2
        exact hnp hm2
    · exact Or.inl ⟨heq, by rw [List.map_cons]; exact hsub'⟩
  · constructor
    · rw [heq]
      exact hnotd
    · exact Or.inr ⟨hce, hfe, heq⟩

/-- Advancing the cursor after it was consumed: the candidate record sequence
splits one record further along (or the stream is found exhausted). -/
theorem pendingInv_advance {recs d : List Record} {cur : Record}
    {f R : List String}
    (heq : recs = d ++ cur :: recordsOf f)
    (hsub : List.Sublist (List.map head (recordsOf f)) R) :
    pendingInv recs (d ++ [cur]) ((next_record f).1) ((next_record f).2) R := by
  by_cases hf : f = []
  · subst hf
    exact Or.inr ⟨rfl, rfl, by simpa [recordsOf] using heq⟩
  · left
    constructor
    · rw [heq, recordsOf_cons hf, List.append_assoc]
      rfl
    · rw [← recordsOf_cons hf]
      exact hsub

/-- Main synchronization invariant: with distinct nonempty reference
identifiers and both candidates ordered subsequences of the remaining
reference, the loop turns each synced output into exactly the filter of its
candidate's records by membership of the identifier in the other candidate. -/
theorem loop_fidelity (aRecs bRecs : List Record) (refIds : List String)
    (hnd : refIds.Nodup) (hemp : "" ∉ refIds) :
    ∀ (R done : List String) (s : SyncState) (dA dB : List Record),
      refIds = done ++ R →
      pendingInv aRecs dA s.a s.fa R →
      pendingInv bRecs dB s.b s.fb R →
      List.Sublist (List.map head dA) done →
      List.Sublist (List.map head dB) done →
      s.synced_a = dA.filter (keeps bRecs) →
      s.synced_b = dB.filter (keeps aRecs) →
      (loop R s).synced_a = aRecs.filter (keeps bRecs) ∧
      (loop R s).synced_b = bRecs.filter (keeps aRecs) := by
  intro R
  induction R with
  | nil =>
    intro done s dA dB hsplit hA hB hdA hdB hsa hsb
    constructor
    · rcases hA with ⟨heq, hsub⟩ | ⟨-, -, heq⟩
      · have := List.sublist_nil.mp hsub
        simp at this
      · show s.synced_a = _
        rw [hsa, heq]
    · rcases hB with ⟨heq, hsub⟩ | ⟨-, -, heq⟩
      · have := List.sublist_nil.mp hsub
        simp at this
      · show s.synced_b = _
        rw [hsb, heq]
  | cons h R ih =>
    intro done s dA dB hsplit hA hB hdA hdB hsa hsb
    have hmem : h ∈ refIds := by
      rw [hsplit]
      exact List.mem_append_right done (List.mem_cons_self h R)
    have hne : h ≠ "" := fun e => hemp (e ▸ hmem)
    have hnd' : (done ++ h :: R).Nodup := hsplit ▸ hnd
    obtain ⟨nd1, nd2, disj⟩ := List.nodup_append.mp hnd'
    have hdone : h ∉ done := fun hd => disj hd (List.mem_cons_self h R)
    have hR : h ∉ R := (List.nodup_cons.mp nd2).1
    have hsplit' : refIds = (done ++ [h]) ++ R := by
      rw [hsplit, List.append_assoc]
      rfl
    simp only [loop]
    by_cases cA : h = head s.a <;> by_cases cB : h = head s.b
    · -- kept branch
      rcases hA with ⟨hAeq, hAsub⟩ | ⟨hae, -, -⟩
      swap
      · exact absurd (by rw [cA, hae, head_emptyRecord]) hne
      rcases hB with ⟨hBeq, hBsub⟩ | ⟨hbe, -, -⟩
      swap
      · exact absurd (by rw [cB, hbe, head_emptyRecord]) hne
      have hstep : step h s = keptUpd s := step_kept cA cB
      have hAsub' : List.Sublist (h :: List.map head (recordsOf s.fa)) (h :: R) := by
        rw [List.map_cons, ← cA] at hAsub
        exact hAsub
      have hAtail := List.Sublist.of_cons_cons hAsub'
      have hBsub' : List.Sublist (h :: List.map head (recordsOf s.fb)) (h :: R) := by
        rw [List.map_cons, ← cB] at hBsub
        exact hBsub
      have hBtail := List.Sublist.of_cons_cons hBsub'
      have hbmemrec : s.b ∈ bRecs := by
        rw [hBeq]
        exact List.mem_append_right dB (List.mem_cons_self _ _)
      have hamemrec : s.a ∈ aRecs := by
        rw [hAeq]
        exact List.mem_append_right dA (List.mem_cons_self _ _)
      have hkA : keeps bRecs s.a = true := by
        simp only [keeps, decide_eq_true_eq]
        rw [← cA, cB]
        exact List.mem_map_of_mem head hbmemrec
      have hkB : keeps aRecs s.b = true := by
        simp only [keeps, decide_eq_true_eq]
        rw [← cB, cA]
        exact List.mem_map_of_mem head hamemrec
      have hA' := pendingInv_advance hAeq hAtail
      have hB' := pendingInv_advance hBeq hBtail
      have hdA' : List.Sublist (List.map head (dA ++ [s.a])) (done ++ [h]) := by
        rw [List.map_append, List.map_cons, List.map_nil, ← cA]
        exact List.Sublist.append hdA (List.Sublist.refl _)
      have hdB' : List.Sublist (List.map head (dB ++ [s.b])) (done ++ [h]) := by
        rw [List.map_append, List.map_cons, List.map_nil, ← cB]
        exact List.Sublist.append hdB (List.Sublist.refl _)
      have hsa' : (keptUpd s).synced_a = (dA ++ [s.a]).filter (keeps bRecs) := by
        show s.synced_a ++ [s.a] = _
        rw [hsa, List.filter_append]
        simp [hkA]
      have hsb' : (keptUpd s).synced_b = (dB ++ [s.b]).filter (keeps aRecs) := by
        show s.synced_b ++ [s.b] = _
        rw [hsb, List.filter_append]
        simp [hkB]
      rw [hstep]
      exact ih (done ++ [h]) (keptUpd s) (dA ++ [s.a]) (dB ++ [s.b])
        hsplit' hA' hB' hdA' hdB' hsa' hsb'
    · -- orphan-A branch
      rcases hA with ⟨hAeq, hAsub⟩ | ⟨hae, -, -⟩
      swap
      · exact absurd (by rw [cA, hae, head_emptyRecord]) hne
      have hstep : step h s = orphanAUpd s := step_orphanA cA cB
      have hAsub' : List.Sublist (h :: List.map head (recordsOf s.fa)) (h :: R) := by
        rw [List.map_cons, ← cA] at hAsub
        exact hAsub
      have hAtail := List.Sublist.of_cons_cons hAsub'
      obtain ⟨hnotB, hB'⟩ := pendingInv_shift hB hdB hdone hR cB
      have hkA : keeps bRecs s.a = false := by
        simp only [keeps, decide_eq_false_iff_not]
        rw [← cA]
        exact hnotB
      have hA' := pendingInv_advance hAeq hAtail
      have hdA' : List.Sublist (List.map head (dA ++ [s.a])) (done ++ [h]) := by
        rw [List.map_append, List.map_cons, List.map_nil, ← cA]
        exact List.Sublist.append hdA (List.Sublist.refl _)
      have hdB' : List.Sublist (List.map head dB) (done ++ [h]) :=
        hdB.trans (List.sublist_append_left done [h])
      have hsa' : (orphanAUpd s).synced_a = (dA ++ [s.a]).filter (keeps bRecs) := by
        show s.synced_a = _
        rw [hsa, List.filter_append]
        simp [hkA]
      have hsb' : (orphanAUpd s).synced_b = dB.filter (keeps aRecs) := hsb
      rw [hstep]
      exact ih (done ++ [h]) (orphanAUpd s) (dA ++ [s.a]) dB
        hsplit' hA' hB' hdA' hdB' hsa' hsb'
    · -- orphan-B branch
      rcases hB with ⟨hBeq, hBsub⟩ | ⟨hbe, -, -⟩
      swap
      · exact absurd (by rw [cB, hbe, head_emptyRecord]) hne
      have hstep : step h s = orphanBUpd s := step_orphanB cA cB
      have hBsub' : List.Sublist (h :: List.map head (recordsOf s.fb)) (h :: R) := by
        rw [List.map_cons, ← cB] at hBsub
        exact hBsub
      have hBtail := List.Sublist.of_cons_cons hBsub'
      obtain ⟨hnotA, hA'⟩ := pendingInv_shift hA hdA hdone hR cA
      have hkB : keeps aRecs s.b = false := by
        simp only [keeps, decide_eq_false_iff_not]
        rw [← cB]
        exact hnotA
      have hB' := pendingInv_advance hBeq hBtail
      have hdB' : List.Sublist (List.map head (dB ++ [s.b])) (done ++ [h]) := by
        rw [List.map_append, List.map_cons, List.map_nil, ← cB]
        exact List.Sublist.append hdB (List.Sublist.refl _)
      have hdA' : List.Sublist (List.map head dA) (done ++ [h]) :=
        hdA.trans (List.sublist_append_left done [h])
      have hsb' : (orphanBUpd s).synced_b = (dB ++ [s.b]).filter (keeps aRecs) := by
        show s.synced_b = _
        rw [hsb, List.filter_append]
        simp [hkB]
      have hsa' : (orphanBUpd s).synced_a = dA.filter (keeps bRecs) := hsa
      rw [hstep]
      exact ih (done ++ [h]) (orphanBUpd s) dA (dB ++ [s.b])
        hsplit' hA' hB' hdA' hdB' hsa' hsb'
    · -- no-op
      have hstep : step h s = s := step_noop cA cB
      obtain ⟨-, hA'⟩ := pendingInv_shift hA hdA hdone hR cA
      obtain ⟨-, hB'⟩ := pendingInv_shift hB hdB hdone hR cB
      have hdA' : List.Sublist (List.map head dA) (done ++ [h]) :=
        hdA.trans (List.sublist_append_left done [h])
      have hdB' : List.Sublist (List.map head dB) (done ++ [h]) :=
        hdB.trans (List.sublist_append_left done [h])
      rw [hstep]
      exact ih (done ++ [h]) s dA dB hsplit' hA' hB' hdA' hdB' hsa hsb

/-- The reference header sequence is the mate identifier of every 4th line. -/
theorem headersOf_eq_everyFourth :
    ∀ lines : List String, headersOf lines = (everyFourth lines).map mateId
  | [] => rfl
  | [_] => rfl
  | [_, _] => rfl
  | [_, _, _] => rfl
  | x :: y :: z :: w :: rest => by
    rw [headersOf, everyFourth, List.map_cons, headersOf_eq_everyFourth rest]

/-! ### Claims -/

/-- C1 (Subsequence fidelity): under the ordered-subsequence invariant (each
candidate's record identifiers form a sublist of the reference identifier
sequence, the reference identifiers are distinct and nonempty), the records
written to synced-A are exactly the subsequence of candidate-A's records
whose identifier also occurs in candidate-B — i.e. those whose identifier
matches the reference at a position where candidate-B's pending identifier
also matches — and symmetrically for synced-B; the two synced outputs agree
identifier-for-identifier position by position, and their identifier sequence
is a sublist of the reference sequence (reference order preserved). -/
theorem C1_subsequence_fidelity (original reads_a reads_b : List String)
    (hnd : (headersOf original).Nodup)
    (hemp : "" ∉ headersOf original)
    (hA : List.Sublist (List.map head (recordsOf reads_a)) (headersOf original))
    (hB : List.Sublist (List.map head (recordsOf reads_b)) (headersOf original)) :
    (syncState original reads_a reads_b).synced_a
        = (recordsOf reads_a).filter (keeps (recordsOf reads_b)) ∧
    (syncState original reads_a reads_b).synced_b
        = (recordsOf reads_b).filter (keeps (recordsOf reads_a)) ∧
    List.map head (syncState original reads_a reads_b).synced_a
        = List.map head (syncState original reads_a reads_b).synced_b ∧
    List.Sublist (List.map head (syncState original reads_a reads_b).synced_a)
        (headersOf original) := by
  have initA : pendingInv (recordsOf reads_a) [] (initState reads_a reads_b).a
      (initState reads_a reads_b).fa (headersOf original) := by
    by_cases hra : reads_a = []
    · subst hra
      exact Or.inr ⟨rfl, rfl, rfl⟩
    · left
      constructor
      · show recordsOf reads_a
          = [] ++ (next_record reads_a).1 :: recordsOf ((next_record reads_a).2)
        rw [← recordsOf_cons hra]
        rfl
      · show List.Sublist (List.map head
          ((next_record reads_a).1 :: recordsOf ((next_record reads_a).2))) _
        rw [← recordsOf_cons hra]
        exact hA
  have initB : pendingInv (recordsOf reads_b) [] (initState reads_a reads_b).b
      (initState reads_a reads_b).fb (headersOf original) := by
    by_cases hrb : reads_b = []
    · subst hrb
      exact Or.inr ⟨rfl, rfl, rfl⟩
    · left
      constructor
      · show recordsOf reads_b
          = [] ++ (next_record reads_b).1 :: recordsOf ((next_record reads_b).2)
        rw [← recordsOf_cons hrb]
        rfl
      · show List.Sublist (List.map head
          ((next_record reads_b).1 :: recordsOf ((next_record reads_b).2))) _
        rw [← recordsOf_cons hrb]
        exact hB
  obtain ⟨h1, h2⟩ := loop_fidelity (recordsOf reads_a) (recordsOf reads_b)
    (headersOf original) hnd hemp (headersOf original) []
    (initState reads_a reads_b) [] [] rfl initA initB
    (List.nil_sublist _) (List.nil_sublist _) rfl rfl
  refine ⟨h1, h2, ?_, ?_⟩
  · exact loop_aligned (headersOf original) (initState reads_a reads_b) rfl
  · show List.Sublist (List.map head
        (loop (headersOf original) (initState reads_a reads_b)).synced_a) _
    rw [h1]
    exact ((List.filter_sublist _).map head).trans hA

/-- Witness for C1: a concrete run (reference r1 r2; A keeps only r1;
B keeps both) satisfying all hypotheses. -/
theorem C1_witness :
    (syncState ["@r1", "A", "+", "I", "@r2", "A", "+", "I"]
        ["@r1 x", "A", "+", "I"]
        ["@r1 y", "A", "+", "I", "@r2 y", "A", "+", "I"]).synced_a
      = (recordsOf ["@r1 x", "A", "+", "I"]).filter
          (keeps (recordsOf ["@r1 y", "A", "+", "I", "@r2 y", "A", "+", "I"])) ∧
    (syncState ["@r1", "A", "+", "I", "@r2", "A", "+", "I"]
        ["@r1 x", "A", "+", "I"]
        ["@r1 y", "A", "+", "I", "@r2 y", "A", "+", "I"]).synced_b
      = (recordsOf ["@r1 y", "A", "+", "I", "@r2 y", "A", "+", "I"]).filter
          (keeps (recordsOf ["@r1 x", "A", "+", "I"])) ∧
    List.map head (syncState ["@r1", "A", "+", "I", "@r2", "A", "+", "I"]
        ["@r1 x", "A", "+", "I"]
        ["@r1 y", "A", "+", "I", "@r2 y", "A", "+", "I"]).synced_a
      = List.map head (syncState ["@r1", "A", "+", "I", "@r2", "A", "+", "I"]
        ["@r1 x", "A", "+", "I"]
        ["@r1 y", "A", "+", "I", "@r2 y", "A", "+", "I"]).synced_b ∧
    List.Sublist (List.map head
        (syncState ["@r1", "A", "+", "I", "@r2", "A", "+", "I"]
          ["@r1 x", "A", "+", "I"]
          ["@r1 y", "A", "+", "I", "@r2 y", "A", "+", "I"]).synced_a)
      (headersOf ["@r1", "A", "+", "I", "@r2", "A", "+", "I"]) :=
  C1_subsequence_fidelity
    ["@r1", "A", "+", "I", "@r2", "A", "+", "I"]
    ["@r1 x", "A", "+", "I"]
    ["@r1 y", "A", "+", "I", "@r2 y", "A", "+", "I"]
    (by decide) (by decide) (by decide) (by decide)

/-- C2 (Conservation): on every input, the returned counters satisfy
total-A = kept + orphaned-A and total-B = kept + orphaned-B. -/
theorem C2_conservation (original reads_a reads_b : List String) :
    (syncState original reads_a reads_b).total_a
        = (syncState original reads_a reads_b).kept
          + (syncState original reads_a reads_b).orphaned_a ∧
    (syncState original reads_a reads_b).total_b
        = (syncState original reads_a reads_b).kept
          + (syncState original reads_a reads_b).orphaned_b :=
  loop_conserve (headersOf original) (initState reads_a reads_b) rfl rfl

/-- C3 (Per-step branch exclusivity and no-op frame): although the script's
three `if` statements are sequential and syntactically non-exclusive, each
loop iteration equals one exclusive nested conditional on the incoming state
(at most one branch executes); when the reference identifier matches at least
one cursor, exactly one of the three guards holds; and when it matches
neither cursor the whole state — all five counters, both cursors, both
stream positions and all three outputs — is unchanged. -/
theorem C3_branch_exclusivity (h : String) (s : SyncState) :
    step h s = stepExclusive h s ∧
    (h ≠ head s.a → h ≠ head s.b → step h s = s) ∧
    ((h = head s.a ∨ h = head s.b) →
      exactlyOneOf (h = head s.a ∧ h ≠ head s.b) (h = head s.b ∧ h ≠ head s.a)
        (h = head s.a ∧ head s.a = head s.b)) := by
  refine ⟨(step_eq h s).trans rfl, fun ha hb => step_noop ha hb, ?_⟩
  intro hor
  by_cases ha : h = head s.a <;> by_cases hb : h = head s.b
  · exact Or.inr (Or.inr ⟨fun c => c.2 hb, fun c => c.2 ha, ha, ha.symm.trans hb⟩)
  · exact Or.inl ⟨⟨ha, hb⟩, fun c => hb c.1, fun c => hb (c.1.trans c.2)⟩
  · exact Or.inr (Or.inl ⟨fun c => ha c.1, ⟨hb, ha⟩, fun c => ha c.1⟩)
  · rcases hor with h1 | h1
    · exact absurd h1 ha
    · exact absurd h1 hb

/-- Witness for C3: a no-op iteration on a concrete state. -/
theorem C3_witness : step "@z" (initState [] []) = initState [] [] :=
  (C3_branch_exclusivity "@z" (initState [] [])).2.1 (by decide) (by decide)

/-- C4 counterexample: the terminal sentinel of an exhausted candidate does
match a reference identifier — the empty one. With candidate A initially
empty (its cursor is the sentinel from the start), B nonempty, and a
reference whose first header line is blank (identifier `""`), the orphan-A
branch fires for the exhausted stream A, contradicting the claim that after
exhaustion only the orphan branch for the *other* candidate (or no branch)
can fire. -/
theorem C4_counterexample :
    (initState [] ["@x", "A", "+", "I"]).a = emptyRecord ∧
    headersOf [""] = [""] ∧
    (syncState [""] [] ["@x", "A", "+", "I"]).orphaned_a = 1 ∧
    (syncState [""] [] ["@x", "A", "+", "I"]).orphaned_b = 0 ∧
    (syncState [""] [] ["@x", "A", "+", "I"]).kept = 0 := by decide

/-- C4 (amended): once a candidate stream is exhausted its cursor is the
empty-record sentinel, whose identifier `""` matches no NONEMPTY reference
identifier; hence every reference identifier that is nonempty (the case for
well-formed FASTQ headers) can only trigger the orphan branch for the other
candidate, or no branch at all — stream A's cursor, counters and both synced
outputs are untouched; and on Scenario D (reference=[r1], A empty, B=[r1])
the run returns total_a=0, total_b=1, kept=0, orphaned_a=0, orphaned_b=1. -/
theorem C4_terminal_sentinel (h : String) (s : SyncState)
    (hsent : head s.a = "") (hne : h ≠ "") :
    (step h s).a = s.a ∧ (step h s).fa = s.fa ∧
    (step h s).orphaned_a = s.orphaned_a ∧ (step h s).total_a = s.total_a ∧
    (step h s).kept = s.kept ∧ (step h s).synced_a = s.synced_a ∧
    (step h s).synced_b = s.synced_b ∧
    (step h s = s ∨ step h s = orphanBUpd s) ∧
    sync_paired_end_reads ["@r1", "A", "+", "I"] [] ["@r1", "A", "+", "I"]
      = (0, 1, 0, 0, 1) := by
  have hna : h ≠ head s.a := by
    rw [hsent]
    exact hne
  have hD : sync_paired_end_reads ["@r1", "A", "+", "I"] [] ["@r1", "A", "+", "I"]
      = (0, 1, 0, 0, 1) := by decide
  rw [step_eq, if_neg (fun c => hna c.1)]
  by_cases c2 : h = head s.b ∧ h ≠ head s.a
  · rw [if_pos c2]
    exact ⟨rfl, rfl, rfl, rfl, rfl, rfl, rfl, Or.inr rfl, hD⟩
  · rw [if_neg c2, if_neg (fun c => hna c.1)]
    exact ⟨rfl, rfl, rfl, rfl, rfl, rfl, rfl, Or.inl rfl, hD⟩

/-- Witness for C4 (amended): a nonempty reference identifier leaves the
exhausted stream A untouched. -/
theorem C4_witness :
    (step "@q" (initState [] [])).orphaned_a
      = (initState [] []).orphaned_a :=
  (C4_terminal_sentinel "@q" (initState [] []) rfl (by decide)).2.2.1

/-- C5 counterexample: the identifier the algorithm compares is NOT the
substring of the header line before the first whitespace character — a tab
is not a separator for the script's `split(' ')`. On the header
`"@x\ty z"` the script's extraction keeps the tab and what follows it, while
the claimed substring-before-first-whitespace stops at the tab. -/
theorem C5_counterexample :
    head ((next_record ["@x\ty z", "A", "+", "I"]).1) = "@x\ty" ∧
    specMateId "@x\ty z" = "@x" ∧
    mateId "@x\ty z" ≠ specMateId "@x\ty z" := by decide

/-- C5 (amended): the identifier compared by the algorithm is the stripped
header line's substring before the first SPACE (U+0020) character — computed
by the same strip-then-split rule for the reference stream and for both
candidate streams (so Illumina headers whose mate/index suffix follows a
space reduce to the same shared identifier); non-space whitespace such as a
tab is not treated as a separator. -/
theorem C5_identifier_extraction :
    (∀ l1 l2 l3 l4 rest, head ((next_record (l1 :: l2 :: l3 :: l4 :: rest)).1)
        = mateId l1) ∧
    (∀ lines : List String, headersOf lines = (everyFourth lines).map mateId) ∧
    (∀ s : String, mateId s = ⟨(pyStrip s).data.takeWhile (fun c => c != ' ')⟩) ∧
    (∀ s : String, ' ' ∉ (mateId s).data ∧
      (mateId s).data ++ (pyStrip s).data.dropWhile (fun c => c != ' ')
        = (pyStrip s).data) ∧
    mateId "@ID/1" = "@ID/1" ∧ mateId "@ID 1:N:0:AB" = "@ID" := by
  refine ⟨fun l1 l2 l3 l4 rest => rfl, headersOf_eq_everyFourth, fun s => rfl,
    fun s => ⟨?_, ?_⟩, by decide, by decide⟩
  · intro hmem
    have := List.mem_takeWhile_imp hmem
    simp at this
  · show List.takeWhile (fun c => c != ' ') (pyStrip s).data
        ++ List.dropWhile (fun c => c != ' ') (pyStrip s).data
      = (pyStrip s).data
    exact List.takeWhile_append_dropWhile _ _

/-- C6 (Scenario C): reference=[r1,r2,r3,r4], A=[r1,r3,r4], B=[r1,r2,r4] —
r1 and r4 are kept as pairs, r2 is orphaned from B, r3 is orphaned from A,
and the counters are total_a=3, total_b=3, kept=2, orphaned_a=1,
orphaned_b=1. -/
theorem C6_scenario_c :
    sync_paired_end_reads
        ["@r1", "A", "+", "I", "@r2", "A", "+", "I",
         "@r3", "A", "+", "I", "@r4", "A", "+", "I"]
        ["@r1 1", "A", "+", "I", "@r3 1", "A", "+", "I", "@r4 1", "A", "+", "I"]
        ["@r1 2", "A", "+", "I", "@r2 2", "A", "+", "I", "@r4 2", "A", "+", "I"]
      = (3, 3, 2, 1, 1) ∧
    (syncState
        ["@r1", "A", "+", "I", "@r2", "A", "+", "I",
         "@r3", "A", "+", "I", "@r4", "A", "+", "I"]
        ["@r1 1", "A", "+", "I", "@r3 1", "A", "+", "I", "@r4 1", "A", "+", "I"]
        ["@r1 2", "A", "+", "I", "@r2 2", "A", "+", "I", "@r4 2", "A", "+", "I"]).synced_a
      = [⟨"@r1 1", "A", "+", "I"⟩, ⟨"@r4 1", "A", "+", "I"⟩] ∧
    (syncState
        ["@r1", "A", "+", "I", "@r2", "A", "+", "I",
         "@r3", "A", "+", "I", "@r4", "A", "+", "I"]
        ["@r1 1", "A", "+", "I", "@r3 1", "A", "+", "I", "@r4 1", "A", "+", "I"]
        ["@r1 2", "A", "+", "I", "@r2 2", "A", "+", "I", "@r4 2", "A", "+", "I"]).synced_b
      = [⟨"@r1 2", "A", "+", "I"⟩, ⟨"@r4 2", "A", "+", "I"⟩] ∧
    (syncState
        ["@r1", "A", "+", "I", "@r2", "A", "+", "I",
         "@r3", "A", "+", "I", "@r4", "A", "+", "I"]
        ["@r1 1", "A", "+", "I", "@r3 1", "A", "+", "I", "@r4 1", "A", "+", "I"]
        ["@r1 2", "A", "+", "I", "@r2 2", "A", "+", "I", "@r4 2", "A", "+", "I"]).orphans
      = [⟨"@r2 2", "A", "+", "I"⟩, ⟨"@r3 1", "A", "+", "I"⟩] := by decide

/-- C7 (Structural anomaly is not an error): on every input — in particular
when the reference ends while a candidate cursor still holds an unmatched
pending record — the run is a total function returning the five counters
(no exception, no warning). Each counter equals the length of the
corresponding output (kept = |synced-A| = |synced-B|,
orphaned-A + orphaned-B = |orphans|), and the final cursor of each candidate
is the record at stream position `total` (records 0..total-1 were the ones
consumed and written), so a leftover pending record is neither written to
any output stream nor counted in any counter. -/
theorem C7_structural_anomaly (original reads_a reads_b : List String) :
    sync_paired_end_reads original reads_a reads_b
      = ((syncState original reads_a reads_b).total_a,
         (syncState original reads_a reads_b).total_b,
         (syncState original reads_a reads_b).kept,
         (syncState original reads_a reads_b).orphaned_a,
         (syncState original reads_a reads_b).orphaned_b) ∧
    (syncState original reads_a reads_b).kept
      = (syncState original reads_a reads_b).synced_a.length ∧
    (syncState original reads_a reads_b).kept
      = (syncState original reads_a reads_b).synced_b.length ∧
    (syncState original reads_a reads_b).orphaned_a
        + (syncState original reads_a reads_b).orphaned_b
      = (syncState original reads_a reads_b).orphans.length ∧
    (syncState original reads_a reads_b).a
      = (next_record (reads_a.drop
          (4 * (syncState original reads_a reads_b).total_a))).1 ∧
    (syncState original reads_a reads_b).fa
      = reads_a.drop (4 * (syncState original reads_a reads_b).total_a + 4) ∧
    (syncState original reads_a reads_b).b
      = (next_record (reads_b.drop
          (4 * (syncState original reads_a reads_b).total_b))).1 ∧
    (syncState original reads_a reads_b).fb
      = reads_b.drop (4 * (syncState original reads_a reads_b).total_b + 4) := by
  obtain ⟨g1, g2, g3, g4, g5, g6, g7⟩ :=
    loop_position reads_a reads_b (headersOf original)
      (initState reads_a reads_b)
      (by show (next_record reads_a).1 = (next_record (reads_a.drop (4 * 0))).1
          norm_num)
      (by show (next_record reads_a).2 = reads_a.drop (4 * 0 + 4)
          rw [next_record_snd])
      (by show (next_record reads_b).1 = (next_record (reads_b.drop (4 * 0))).1
          norm_num)
      (by show (next_record reads_b).2 = reads_b.drop (4 * 0 + 4)
          rw [next_record_snd])
      rfl rfl rfl
  exact ⟨rfl, g5, g6, g7, g1, g2, g3, g4⟩

/-- C8 (Termination): the loop, viewed as a small-step machine over
(remaining reference identifiers, state), terminates after exactly as many
transitions as there are reference identifiers — after `n` transitions the
remaining reference stream is precisely the original one with `n`
identifiers dropped, so the machine halts exactly when the reference
sequence is exhausted — and the final state is the run's result, whose five
counters are the returned quintuple. Each transition only moves forward in
the candidate streams (the remaining lines afterwards are a suffix of those
before): a single forward pass with no backtracking. -/
theorem C8_termination (original reads_a reads_b : List String) :
    machineRun (headersOf original).length
        (headersOf original, initState reads_a reads_b)
      = ([], syncState original reads_a reads_b) ∧
    (∀ n : Nat,
      (machineRun n (headersOf original, initState reads_a reads_b)).1
        = (headersOf original).drop n) ∧
    sync_paired_end_reads original reads_a reads_b
      = ((syncState original reads_a reads_b).total_a,
         (syncState original reads_a reads_b).total_b,
         (syncState original reads_a reads_b).kept,
         (syncState original reads_a reads_b).orphaned_a,
         (syncState original reads_a reads_b).orphaned_b) ∧
    (∀ (h : String) (s : SyncState),
      List.IsSuffix (step h s).fa s.fa ∧ List.IsSuffix (step h s).fb s.fb) := by
  refine ⟨?_, ?_, rfl, step_forward⟩
  · rw [machineRun_eq]
    simp [syncState]
  · intro n
    rw [machineRun_eq]

/-- C9 (Frame effect of orphan branches): when the orphan-A branch fires
(the reference identifier matches cursor A but not cursor B), cursor B, its
stream position, orphaned-B, total-B and kept are unchanged, nothing is
written to synced-A or synced-B, and exactly one record — the pending A
record — is appended to orphans; symmetrically for the orphan-B branch. -/
theorem C9_orphan_frame (h : String) (s : SyncState) :
    (h = head s.a → h ≠ head s.b →
      (step h s).b = s.b ∧ (step h s).fb = s.fb ∧
      (step h s).orphaned_b = s.orphaned_b ∧ (step h s).total_b = s.total_b ∧
      (step h s).kept = s.kept ∧ (step h s).synced_a = s.synced_a ∧
      (step h s).synced_b = s.synced_b ∧
      (step h s).orphans = s.orphans ++ [s.a]) ∧
    (h = head s.b → h ≠ head s.a →
      (step h s).a = s.a ∧ (step h s).fa = s.fa ∧
      (step h s).orphaned_a = s.orphaned_a ∧ (step h s).total_a = s.total_a ∧
      (step h s).kept = s.kept ∧ (step h s).synced_a = s.synced_a ∧
      (step h s).synced_b = s.synced_b ∧
      (step h s).orphans = s.orphans ++ [s.b]) := by
  constructor
  · intro ha hb
    rw [step_orphanA ha hb]
    exact ⟨rfl, rfl, rfl, rfl, rfl, rfl, rfl, rfl⟩
  · intro hb ha
    rw [step_orphanB ha hb]
    exact ⟨rfl, rfl, rfl, rfl, rfl, rfl, rfl, rfl⟩

/-- Witness for C9: an orphan-A iteration on a concrete state leaves the
kept counter unchanged. -/
theorem C9_witness :
    (step "@a" (initState ["@a", "A", "+", "I"] ["@b", "C", "+", "I"])).kept
      = (initState ["@a", "A", "+", "I"] ["@b", "C", "+", "I"]).kept :=
  ((C9_orphan_frame "@a"
      (initState ["@a", "A", "+", "I"] ["@b", "C", "+", "I"])).1
    (by decide) (by decide)).2.2.2.2.1

/-- C10 (Sentinel representation and stability): reading a record from an
exhausted (or initially empty) stream yields the record of four empty
strings, whose identifier is the empty string and equals a reference
identifier exactly when that identifier is empty; and once a cursor is the
sentinel with its stream empty, every further iteration leaves it the
sentinel with the stream empty (advancing an exhausted stream re-yields the
sentinel). -/
theorem C10_sentinel (h : String) (s : SyncState) :
    next_record [] = (emptyRecord, []) ∧
    emptyRecord = ⟨"", "", "", ""⟩ ∧
    head emptyRecord = "" ∧
    (∀ x : String, head emptyRecord = x ↔ x = "") ∧
    (s.a = emptyRecord → s.fa = [] →
      (step h s).a = emptyRecord ∧ (step h s).fa = []) := by
  refine ⟨rfl, rfl, rfl, ?_, ?_⟩
  · intro x
    rw [head_emptyRecord]
    exact eq_comm
  · intro ha hf
    rw [step_eq]
    split_ifs
    · constructor
      · show (next_record s.fa).1 = emptyRecord
        rw [hf]
        rfl
      · show (next_record s.fa).2 = []
        rw [hf]
        rfl
    · exact ⟨ha, hf⟩
    · constructor
      · show (next_record s.fa).1 = emptyRecord
        rw [hf]
        rfl
      · show (next_record s.fa).2 = []
        rw [hf]
        rfl
    · exact ⟨ha, hf⟩

/-- Witness for C10: the sentinel stays the sentinel even when the empty
reference identifier fires a branch on it. -/
theorem C10_witness :
    (step "" (initState [] [])).a = emptyRecord ∧
    (step "" (initState [] [])).fa = [] :=
  (C10_sentinel "" (initState [] [])).2.2.2.2 rfl rfl

end Sync
